import Mathlib

/-!
Verification of the TAC negotiation-and-settlement engine.

This file gives a shallow embedding, in Lean 4, of the ledger
(src/tac/platform/game.py: GameConfiguration, GameInitialization, Game,
AgentState, GoodState, WorldState) and of the FIPA negotiation handlers
(src/tac/agents/v2/base/behaviours.py: FIPABehaviour), and proves the
frozen claims about them.

Modelling conventions:
- Python floats for money and prices are modelled as rationals.
- Python dicts keyed by agent/good public keys are modelled positionally:
  an agent or good public key is its index, matching the source that
  zips dict values with enumerate indices.
- Fallible code paths (assertion failures, KeyError, ZeroDivisionError,
  DuplicateLockError) are modelled with Option: none is the raised error.
- Python round(x, n) is modelled by rounding x * 10^n to the nearest
  integer (half up).  None of the claims below depends on the treatment
  of exact half-way cases.
-/

set_option maxHeartbeats 1000000

namespace TAC

/-- Rounding to two decimal places, modelling Python round(x, 2). -/
def round2 (x : ℚ) : ℚ := (round (x * 100) : ℚ) / 100

/-- Rounding to one decimal place, modelling Python round(x, 1). -/
def round1 (x : ℚ) : ℚ := (round (x * 10) : ℚ) / 10

/-- In-place update of the element at an index of a list, modelling a
Python assignment into a list or dict slot.  Out-of-range indices leave
the list unchanged. -/
def updAt {α : Type} : ℕ → (α → α) → List α → List α
  | _, _, [] => []
  | 0, f, x :: xs => f x :: xs
  | i + 1, f, x :: xs => x :: updAt i f xs

/-- Transaction.  Modelled from the spec: the Transaction class lives in
tac/platform/protocol.py, which is not under src/.  Per the spec data
model it is an agreed trade: id, direction flag (is the sender the
buyer), counterparty identity, amount of money, a mapping good
to traded quantity from the buyer's perspective, and the sender
identity.  Signatures are out of scope. -/
structure Transaction where
  transactionId : ℕ
  isSenderBuyer : Bool
  counterparty : ℕ
  amount : ℚ
  quantitiesByGood : List ℕ
  sender : ℕ
deriving DecidableEq

/-- Buyer of a transaction: the sender when the direction flag is set,
the counterparty otherwise.  Modelled from the spec's direction flag. -/
def Transaction.buyer (tx : Transaction) : ℕ :=
  if tx.isSenderBuyer then tx.sender else tx.counterparty

/-- Seller of a transaction: the counterparty of the buyer. -/
def Transaction.seller (tx : Transaction) : ℕ :=
  if tx.isSenderBuyer then tx.counterparty else tx.sender

/-- GameConfiguration (game.py): agent count, good count, transaction
fee and the two public-key-to-name maps (kept abstract as pair lists;
they take no part in any ledger computation). -/
structure GameConfiguration where
  nbAgents : ℕ
  nbGoods : ℕ
  txFee : ℚ
  agentPbkToName : List (ℕ × ℕ)
  goodPbkToName : List (ℕ × ℕ)
deriving DecidableEq

/-- GameInitialization (game.py): initial money, endowment matrix,
utility-parameter matrix, and the equilibrium benchmark data. -/
structure GameInitialization where
  initialMoneyAmounts : List ℚ
  endowments : List (List ℤ)
  utilityParams : List (List ℚ)
  eqPrices : List ℚ
  eqGoodHoldings : List (List ℚ)
  eqMoneyHoldings : List ℚ
deriving DecidableEq

/-- AgentState (game.py): current balance, current holdings per good,
and the fixed utility parameters per good. -/
structure AgentState where
  balance : ℚ
  currentHoldings : List ℤ
  utilityParams : List ℚ
deriving DecidableEq, Inhabited

/-- GoodState (game.py): the last observed market price of one good. -/
structure GoodState where
  price : ℚ
deriving DecidableEq, Inhabited

/-- Game (game.py): configuration, initialization, the live agent
states, the live good states, and the ordered transaction log. -/
structure Game where
  configuration : GameConfiguration
  initialization : GameInitialization
  agentStates : List AgentState
  goodStates : List GoodState
  transactions : List Transaction
deriving DecidableEq

/-- Game construction (Game.__init__): one agent state per agent built
from the initialization row, one good state per good at the default
price 0, and an empty transaction log. -/
def mkGame (c : GameConfiguration) (ini : GameInitialization) : Game where
  configuration := c
  initialization := ini
  agentStates :=
    (List.range c.nbAgents).map fun i =>
      { balance := ini.initialMoneyAmounts.getD i 0
        currentHoldings := ini.endowments.getD i []
        utilityParams := ini.utilityParams.getD i [] }
  goodStates := (List.range c.nbGoods).map fun _ => { price := 0 }
  transactions := []

/-- The seller-side loop of Game.is_transaction_valid: for every good
position, the holdings entry is at least the traded quantity.  A missing
holdings entry is read as 0 (the source would fail on the access). -/
def holdingsGeq : List ℤ → List ℕ → Bool
  | _, [] => true
  | [], q :: qs => decide ((q : ℤ) ≤ 0) && holdingsGeq [] qs
  | x :: h, q :: qs => decide ((q : ℤ) ≤ x) && holdingsGeq h qs

/-- Game.is_transaction_valid: the buyer's balance covers the amount
plus half the fee rounded to 2 decimals, and the seller holds at least
the traded quantity of every good. -/
def Game.isTransactionValid (g : Game) (tx : Transaction) : Bool :=
  let shareOfTxFee := round2 (g.configuration.txFee / 2)
  if (g.agentStates.getD tx.buyer default).balance < tx.amount + shareOfTxFee then false
  else holdingsGeq (g.agentStates.getD tx.seller default).currentHoldings tx.quantitiesByGood

/-- The holdings-update loop of Game.settle_transaction and of
AgentState.update: add sgn times each traded quantity to the
corresponding holdings entry. -/
def addQ (sgn : ℤ) : List ℤ → List ℕ → List ℤ
  | [], _ => []
  | h, [] => h
  | x :: h, q :: qs => (x + sgn * (q : ℤ)) :: addQ sgn h qs

/-- The price-update loop of Game.settle_transaction: every good with a
positive traded quantity has its recorded price set to p. -/
def updPrices (p : ℚ) : List GoodState → List ℕ → List GoodState
  | [], _ => []
  | gs, [] => gs
  | gstate :: gs, q :: qs => (if 0 < q then { price := p } else gstate) :: updPrices p gs qs

/-- Game.settle_transaction: none models the assertion failure on an
invalid transaction; otherwise append the transaction to the log, move
the traded quantities from the seller to the buyer, set the price of
every positively traded good to amount / (total traded instances), and
move the amount between the balances, charging each side half the fee
rounded to 2 decimals. -/
def Game.settleTransaction (g : Game) (tx : Transaction) : Option Game :=
  if g.isTransactionValid tx then
    let nbInstancesTraded : ℕ := tx.quantitiesByGood.sum
    let price := tx.amount / (nbInstancesTraded : ℚ)
    let shareOfTxFee := round2 (g.configuration.txFee / 2)
    let s1 := updAt tx.buyer
      (fun st => { st with currentHoldings := addQ 1 st.currentHoldings tx.quantitiesByGood })
      g.agentStates
    let s2 := updAt tx.seller
      (fun st => { st with currentHoldings := addQ (-1) st.currentHoldings tx.quantitiesByGood })
      s1
    let s3 := updAt tx.buyer
      (fun st => { st with balance := st.balance - (tx.amount + shareOfTxFee) }) s2
    let s4 := updAt tx.seller
      (fun st => { st with balance := st.balance + (tx.amount - shareOfTxFee) }) s3
    some { g with
      transactions := g.transactions ++ [tx]
      agentStates := s4
      goodStates := updPrices price g.goodStates tx.quantitiesByGood }
  else none

/-- Sum of all balances of a game, for the conservation claims. -/
def sumBalances (g : Game) : ℚ := (g.agentStates.map AgentState.balance).sum

/-- Total holdings of the good at one position, summed over agents. -/
def colHoldings (g : Game) (j : ℕ) : ℤ :=
  (g.agentStates.map fun st => st.currentHoldings.getD j 0).sum

/-- The persistence form written by Game.to_dict: configuration,
initialization and the transaction log. -/
structure GameDict where
  configuration : GameConfiguration
  initialization : GameInitialization
  transactions : List Transaction
deriving DecidableEq

/-- Game.to_dict. -/
def Game.toDict (g : Game) : GameDict :=
  { configuration := g.configuration
    initialization := g.initialization
    transactions := g.transactions }

/-- The replay loop of Game.from_dict: settle each logged transaction in
order; none models the assertion failure on an invalid entry. -/
def Game.replay : Game → List Transaction → Option Game
  | g, [] => some g
  | g, tx :: txs =>
    match g.settleTransaction tx with
    | none => none
    | some g1 => g1.replay txs

/-- Game.from_dict: rebuild the game from configuration and
initialization and replay the transaction log through settlement. -/
def Game.fromDict (d : GameDict) : Option Game :=
  (mkGame d.configuration d.initialization).replay d.transactions

/-- Game.__eq__: two games are equal when their configurations and
transaction logs agree. -/
def gameEq (g g' : Game) : Bool :=
  decide (g.configuration = g'.configuration) && decide (g.transactions = g'.transactions)

/-- AgentState.get_score, parameterised over the logarithmic utility
function (tac/helpers/misc.py, not under src/; per the spec the score is
a logarithmic utility over utility weights and holdings plus balance,
and its exact shape is irrelevant to every claim below). -/
def AgentState.getScore (u : List ℚ → List ℤ → ℚ) (st : AgentState) : ℚ :=
  u st.utilityParams st.currentHoldings + st.balance

/-- AgentState.update: apply one transaction to this state, where the
direction flag says whether the owner of the state is the buyer. -/
def AgentState.update (st : AgentState) (tx : Transaction) (txFee : ℚ) : AgentState :=
  let shareOfTxFee := round2 (txFee / 2)
  { st with
    balance :=
      if tx.isSenderBuyer then st.balance - (tx.amount + shareOfTxFee)
      else st.balance + (tx.amount - shareOfTxFee)
    currentHoldings :=
      addQ (if tx.isSenderBuyer then 1 else -1) st.currentHoldings tx.quantitiesByGood }

/-- AgentState.apply: apply a list of transactions to a copy of the
current state and return the final state. -/
def AgentState.applyTxs (st : AgentState) (txs : List Transaction) (txFee : ℚ) : AgentState :=
  txs.foldl (fun s tx => s.update tx txFee) st

/-- AgentState.get_score_diff_from_transaction: the score of the state
with the transaction applied, minus the current score. -/
def AgentState.getScoreDiffFromTransaction (u : List ℚ → List ℤ → ℚ)
    (st : AgentState) (tx : Transaction) (txFee : ℚ) : ℚ :=
  (st.applyTxs [tx] txFee).getScore u - st.getScore u

/-- AgentState.check_transaction_is_consistent: as buyer the balance
covers amount plus the fee share, as seller every holdings entry covers
the traded quantity. -/
def AgentState.checkTransactionIsConsistent (st : AgentState) (tx : Transaction)
    (txFee : ℚ) : Bool :=
  let shareOfTxFee := round2 (txFee / 2)
  if tx.isSenderBuyer then decide (tx.amount + shareOfTxFee ≤ st.balance)
  else holdingsGeq st.currentHoldings tx.quantitiesByGood

/-- One good's price model.  Modelled from the spec: GoodPriceModel
(tac/helpers/price_model.py, not under src/) exposes exactly an
update(outcome, price) entry point; it is modelled as the log of the
observations fed to it, each an outcome flag with a price. -/
abbrev GoodPriceModel : Type := List (Bool × ℚ)

/-- WorldState (game.py), restricted to the part the claims touch: one
price model per good (the naive per-opponent state copies play no role
in any claim). -/
structure WorldState where
  goodPriceModels : List GoodPriceModel
deriving DecidableEq

/-- The per-good update loop of WorldState._from_transaction_update_price
with WorldState._update_price inlined: every good with a positive traded
quantity has the observation appended to its price model. -/
def updObs (obs : Bool × ℚ) : List GoodPriceModel → List ℕ → List GoodPriceModel
  | [], _ => []
  | ms, [] => ms
  | m :: ms, q :: qs => (if 0 < q then m ++ [obs] else m) :: updObs obs ms qs

/-- WorldState._from_transaction_update_price: divide the amount by the
total number of traded units (none models the ZeroDivisionError when no
quantity is positive), round to 1 decimal, and feed the price with the
outcome flag into the price model of every positively traded good. -/
def WorldState.fromTransactionUpdatePrice (ws : WorldState) (tx : Transaction)
    (isAccepted : Bool) : Option WorldState :=
  let totalUnits : ℕ := tx.quantitiesByGood.sum
  if totalUnits = 0 then none
  else
    let price := round1 (tx.amount / (totalUnits : ℚ))
    some { goodPriceModels := updObs (isAccepted, price) ws.goodPriceModels tx.quantitiesByGood }

/-- WorldState.update_on_declined_propose: a rejected observation. -/
def WorldState.updateOnDeclinedPropose (ws : WorldState) (tx : Transaction) : Option WorldState :=
  ws.fromTransactionUpdatePrice tx false

/-- WorldState.update_on_initial_accept: an accepted observation. -/
def WorldState.updateOnInitialAccept (ws : WorldState) (tx : Transaction) : Option WorldState :=
  ws.fromTransactionUpdatePrice tx true

/-- Lock manager.  Modelled from the spec: the LockManager class
(tac/agents/v2/base/game_instance.py, not under src/) keeps committed
locks keyed by transaction id, split by role for the locked-state
computation, and the two dialogue-scoped pending maps keyed by dialogue
label and message id. -/
structure LockManager where
  locks : List (ℕ × Transaction)
  locksAsBuyer : List Transaction
  locksAsSeller : List Transaction
  pendingTxProposals : List ((ℕ × ℕ) × Transaction)
  pendingTxAcceptances : List ((ℕ × ℕ) × Transaction)
deriving DecidableEq

/-- Lookup in an association list keyed by decidable keys. -/
def alistLookup {κ α : Type} [DecidableEq κ] (k : κ) : List (κ × α) → Option α
  | [] => none
  | (k1, a) :: rest => if k1 = k then some a else alistLookup k rest

/-- Removal of the first binding of a key from an association list. -/
def alistErase {κ α : Type} [DecidableEq κ] (k : κ) : List (κ × α) → List (κ × α)
  | [] => []
  | (k1, a) :: rest => if k1 = k then rest else (k1, a) :: alistErase k rest

/-- LockManager.add_lock.  Modelled from the spec: inserts under the
transaction id into the lock map and the role-specific map; none models
the DuplicateLockError when the id is already present. -/
def LockManager.addLock (lm : LockManager) (tx : Transaction) (asSeller : Bool) :
    Option LockManager :=
  if (alistLookup tx.transactionId lm.locks).isSome then none
  else some { lm with
    locks := lm.locks ++ [(tx.transactionId, tx)]
    locksAsBuyer := if asSeller then lm.locksAsBuyer else lm.locksAsBuyer ++ [tx]
    locksAsSeller := if asSeller then lm.locksAsSeller ++ [tx] else lm.locksAsSeller }

/-- LockManager.pop_lock.  Modelled from the spec: removes the lock with
the given id; a no-op when it is absent. -/
def LockManager.popLock (lm : LockManager) (txId : ℕ) : LockManager :=
  { lm with
    locks := alistErase txId lm.locks
    locksAsBuyer := lm.locksAsBuyer.filter fun tx => tx.transactionId ≠ txId
    locksAsSeller := lm.locksAsSeller.filter fun tx => tx.transactionId ≠ txId }

/-- LockManager.pop_pending_proposal.  Modelled from the spec: removes
and returns the pending proposal at (dialogue label, message id); none
models the lookup failure. -/
def LockManager.popPendingProposal (lm : LockManager) (label msgId : ℕ) :
    Option (Transaction × LockManager) :=
  match alistLookup (label, msgId) lm.pendingTxProposals with
  | none => none
  | some tx =>
    some (tx, { lm with pendingTxProposals := alistErase (label, msgId) lm.pendingTxProposals })

/-- LockManager.add_pending_acceptances.  Modelled from the spec: stores
the transaction under (dialogue label, message id). -/
def LockManager.addPendingAcceptance (lm : LockManager) (label msgId : ℕ)
    (tx : Transaction) : LockManager :=
  { lm with pendingTxAcceptances := lm.pendingTxAcceptances ++ [((label, msgId), tx)] }

/-- LockManager.pop_pending_acceptances.  Modelled from the spec:
removes and returns the pending acceptance at (dialogue label, message
id); none models the lookup failure. -/
def LockManager.popPendingAcceptance (lm : LockManager) (label msgId : ℕ) :
    Option (Transaction × LockManager) :=
  match alistLookup (label, msgId) lm.pendingTxAcceptances with
  | none => none
  | some tx =>
    some (tx, { lm with pendingTxAcceptances := alistErase (label, msgId) lm.pendingTxAcceptances })

/-- Dialogue: its label and the fixed role of this agent in it. -/
structure Dialogue where
  label : ℕ
  dialogueId : ℕ
  isSeller : Bool
deriving DecidableEq

/-- The agent-side game instance.  Modelled from the spec: the
GameInstance class (tac/agents/v2/base/game_instance.py, not under
src/) owns the agent's ledger view, the fee, the lock manager, the
belief state with its flag, and the identities of the agent and of the
settlement authority (controller). -/
structure GameInstance where
  agentState : AgentState
  txFee : ℚ
  lockManager : LockManager
  isWorldModeling : Bool
  worldState : WorldState
  ownPbk : ℕ
  controllerPbk : ℕ
deriving DecidableEq

/-- GameInstance.state_after_locks.  Modelled from the spec: the current
ledger state with all currently held locks for this role hypothetically
applied. -/
def GameInstance.stateAfterLocks (gi : GameInstance) (isSeller : Bool) : AgentState :=
  gi.agentState.applyTxs
    (if isSeller then gi.lockManager.locksAsSeller else gi.lockManager.locksAsBuyer)
    gi.txFee

/-- FIPABehaviour._is_profitable_transaction: against the state after
locks for the dialogue's role, the transaction is consistent and its
score delta is non-negative. -/
def isProfitableTransaction (u : List ℚ → List ℤ → ℚ) (gi : GameInstance)
    (tx : Transaction) (dlg : Dialogue) : Bool :=
  let stateAfterLocks := gi.stateAfterLocks dlg.isSeller
  if !stateAfterLocks.checkTransactionIsConsistent tx gi.txFee then false
  else decide (0 ≤ stateAfterLocks.getScoreDiffFromTransaction u tx gi.txFee)

/-- An inbound FIPA message header: message id, dialogue id, origin
(the counterparty, called destination in the source's incoming
messages) and target. -/
structure FipaMsg where
  msgId : ℕ
  dialogueId : ℕ
  destination : ℕ
  target : ℕ
deriving DecidableEq

/-- An outbound item produced by a handler: a serialized-transaction
message to the settlement authority, an Accept, or a Decline. -/
inductive OutItem : Type
  | byteMessage (msgId dialogueId destination : ℕ) (payload : Transaction)
  | acceptItem (msgId dialogueId destination target : ℕ)
  | declineItem (msgId dialogueId destination target : ℕ)
deriving DecidableEq

/-- Transaction-id derivation.  Modelled from the spec:
generate_transaction_id (tac/helpers/misc.py, not under src/) derives
the id deterministically from own identity, counterparty, dialogue id
and role; an injective pairing stands in for the string encoding. -/
def generateTransactionId (pbk counterparty dialogueId : ℕ) (isSeller : Bool) : ℕ :=
  Nat.pair (Nat.pair pbk counterparty) (Nat.pair dialogueId (if isSeller then 1 else 0))

/-- A received proposal, reduced to the data that determines the implied
transaction: header plus the proposed amount and quantities. -/
structure ProposeMsg where
  msgId : ℕ
  dialogueId : ℕ
  destination : ℕ
  target : ℕ
  amount : ℚ
  quantitiesByGood : List ℕ
deriving DecidableEq

/-- Transaction.from_proposal as used by FIPABehaviour.on_propose.
Modelled from the spec: the implied transaction of a received proposal,
with this agent the buyer exactly when it is not the seller of the
dialogue. -/
def txFromProposal (gi : GameInstance) (propose : ProposeMsg) (dlg : Dialogue) : Transaction :=
  { transactionId := generateTransactionId gi.ownPbk propose.destination propose.dialogueId dlg.isSeller
    isSenderBuyer := !dlg.isSeller
    counterparty := propose.destination
    amount := propose.amount
    quantitiesByGood := propose.quantitiesByGood
    sender := gi.ownPbk }

/-- FIPABehaviour.on_propose: build the implied transaction; if it is
profitable, lock it, store it as a pending acceptance under the next
message id and answer Accept; otherwise answer Decline.  none models the
DuplicateLockError on the lock insertion. -/
def onPropose (u : List ℚ → List ℤ → ℚ) (gi : GameInstance) (propose : ProposeMsg)
    (dlg : Dialogue) : Option (GameInstance × OutItem) :=
  let transaction := txFromProposal gi propose dlg
  let newMsgId := propose.msgId + 1
  if isProfitableTransaction u gi transaction dlg then
    match gi.lockManager.addLock transaction dlg.isSeller with
    | none => none
    | some lm1 =>
      some ({ gi with lockManager := lm1.addPendingAcceptance dlg.label newMsgId transaction },
        OutItem.acceptItem newMsgId propose.dialogueId propose.destination propose.msgId)
  else
    some (gi, OutItem.declineItem newMsgId propose.dialogueId propose.destination propose.msgId)

/-- FIPABehaviour.on_decline: when the agent keeps belief state and a
pending proposal matches the decline's target, pop it and feed it to the
belief-state price update as a rejected observation (none models the
ZeroDivisionError inside that update); then release a lock under the
derivable transaction id when one is held. -/
def onDecline (gi : GameInstance) (decline : FipaMsg) (dlg : Dialogue) :
    Option GameInstance :=
  let step1 : Option GameInstance :=
    if gi.isWorldModeling then
      match gi.lockManager.popPendingProposal dlg.label decline.target with
      | none => some gi
      | some (transaction, lm1) =>
        match gi.worldState.updateOnDeclinedPropose transaction with
        | none => none
        | some ws1 => some { gi with lockManager := lm1, worldState := ws1 }
    else some gi
  match step1 with
  | none => none
  | some gi1 =>
    let transactionId := generateTransactionId gi.ownPbk decline.destination decline.dialogueId dlg.isSeller
    if (alistLookup transactionId gi1.lockManager.locks).isSome then
      some { gi1 with lockManager := gi1.lockManager.popLock transactionId }
    else some gi1

/-- FIPABehaviour._on_match_accept: pop the pending acceptance at the
accept's target and answer with one serialized-transaction message to
the settlement authority. -/
def onMatchAccept (gi : GameInstance) (accept : FipaMsg) (dlg : Dialogue) :
    Option (GameInstance × List OutItem) :=
  match gi.lockManager.popPendingAcceptance dlg.label accept.target with
  | none => none
  | some (transaction, lm1) =>
    some ({ gi with lockManager := lm1 },
      [OutItem.byteMessage (accept.msgId + 1) accept.dialogueId gi.controllerPbk transaction])

/-- FIPABehaviour._on_initial_accept: pop the pending proposal at the
accept's target (none models the failure on a fabricated accept);
re-evaluate profitability; if still profitable, update the belief state
with an accepted observation when modelled, lock the transaction, and
answer with the serialized transaction to the settlement authority
followed by an echoed Accept; otherwise answer a single Decline. -/
def onInitialAccept (u : List ℚ → List ℤ → ℚ) (gi : GameInstance) (accept : FipaMsg)
    (dlg : Dialogue) : Option (GameInstance × List OutItem) :=
  match gi.lockManager.popPendingProposal dlg.label accept.target with
  | none => none
  | some (transaction, lm1) =>
    let newMsgId := accept.msgId + 1
    if isProfitableTransaction u { gi with lockManager := lm1 } transaction dlg then
      match (if gi.isWorldModeling then gi.worldState.updateOnInitialAccept transaction
             else some gi.worldState) with
      | none => none
      | some ws1 =>
        match lm1.addLock transaction dlg.isSeller with
        | none => none
        | some lm2 =>
          some ({ gi with lockManager := lm2, worldState := ws1 },
            [OutItem.byteMessage newMsgId accept.dialogueId gi.controllerPbk transaction,
             OutItem.acceptItem newMsgId accept.dialogueId accept.destination accept.msgId])
    else
      some ({ gi with lockManager := lm1 },
        [OutItem.declineItem newMsgId accept.dialogueId accept.destination accept.msgId])

/-- FIPABehaviour.on_accept: dispatch on whether a pending acceptance
for this dialogue matches the accept's target. -/
def onAccept (u : List ℚ → List ℤ → ℚ) (gi : GameInstance) (accept : FipaMsg)
    (dlg : Dialogue) : Option (GameInstance × List OutItem) :=
  if (alistLookup (dlg.label, accept.target) gi.lockManager.pendingTxAcceptances).isSome then
    onMatchAccept gi accept dlg
  else onInitialAccept u gi accept dlg

/-! Concrete instances used by the witnesses and the counterexample.
The game mirrors the doctest of Game.settle_transaction, shrunk to two
agents and two goods, with transaction fee 0.03. -/

/-- A concrete stand-in for the logarithmic utility function. -/
def u0 : List ℚ → List ℤ → ℚ := fun _ _ => 0

/-- Example configuration: two agents, two goods, fee 0.03. -/
def exConfiguration : GameConfiguration :=
  { nbAgents := 2, nbGoods := 2, txFee := 3 / 100
    agentPbkToName := [(0, 0), (1, 1)], goodPbkToName := [(0, 0), (1, 1)] }

/-- Example initialization: both agents start at 20 money, [1, 1]. -/
def exInitialization : GameInitialization :=
  { initialMoneyAmounts := [20, 20], endowments := [[1, 1], [1, 1]]
    utilityParams := [[1, 1], [1, 1]], eqPrices := [1, 1]
    eqGoodHoldings := [[1, 1], [1, 1]], eqMoneyHoldings := [20, 20] }

/-- Example fresh game. -/
def exGame : Game := mkGame exConfiguration exInitialization

/-- Example valid transaction: agent 0 buys one unit of good 0 from
agent 1 for amount 1. -/
def exTx : Transaction :=
  { transactionId := 0, isSenderBuyer := true, counterparty := 1
    amount := 1, quantitiesByGood := [1, 0], sender := 0 }

/-- Example invalid transaction: the amount 100 exceeds the balance. -/
def exBadTx : Transaction :=
  { transactionId := 1, isSenderBuyer := true, counterparty := 1
    amount := 100, quantitiesByGood := [1, 0], sender := 0 }

/-- Example transaction with no traded unit at all. -/
def exTxZero : Transaction :=
  { transactionId := 7, isSenderBuyer := true, counterparty := 1
    amount := 5, quantitiesByGood := [0, 0], sender := 0 }

/-- Example free transaction (amount 0), profitable under u0. -/
def exTxFree : Transaction :=
  { transactionId := 42, isSenderBuyer := true, counterparty := 1
    amount := 0, quantitiesByGood := [1, 0], sender := 0 }

/-- The example game after settling the example transaction. -/
def exGame1 : Game :=
  { configuration := exConfiguration
    initialization := exInitialization
    agentStates :=
      [{ balance := 949 / 50, currentHoldings := [2, 1], utilityParams := [1, 1] },
       { balance := 1049 / 50, currentHoldings := [0, 1], utilityParams := [1, 1] }]
    goodStates := [{ price := 1 }, { price := 0 }]
    transactions := [exTx] }

/-- Example agent-side ledger view. -/
def exAgentState : AgentState :=
  { balance := 20, currentHoldings := [1, 1], utilityParams := [1, 1] }

/-- Example belief state: two goods, no observation yet. -/
def exWorldState : WorldState := { goodPriceModels := [[], []] }

/-- An empty lock manager. -/
def exLmEmpty : LockManager :=
  { locks := [], locksAsBuyer := [], locksAsSeller := []
    pendingTxProposals := [], pendingTxAcceptances := [] }

/-- Lock manager holding one pending proposal (for the accept case). -/
def exLockManager7 : LockManager :=
  { exLmEmpty with pendingTxProposals := [((5, 7), exTxFree)] }

/-- Lock manager holding one pending proposal (for the decline case). -/
def exLockManager8 : LockManager :=
  { exLmEmpty with pendingTxProposals := [((5, 7), exTx)] }

/-- Example game instance without belief modelling. -/
def exGi7 : GameInstance :=
  { agentState := exAgentState, txFee := 0, lockManager := exLockManager7
    isWorldModeling := false, worldState := exWorldState, ownPbk := 0, controllerPbk := 99 }

/-- Example game instance with belief modelling switched on. -/
def exGi8 : GameInstance :=
  { agentState := exAgentState, txFee := 0, lockManager := exLockManager8
    isWorldModeling := true, worldState := exWorldState, ownPbk := 0, controllerPbk := 99 }

/-- Example game instance with an empty lock manager. -/
def exGi9 : GameInstance :=
  { agentState := exAgentState, txFee := 0, lockManager := exLmEmpty
    isWorldModeling := false, worldState := exWorldState, ownPbk := 0, controllerPbk := 99 }

/-- Example dialogue where this agent is the buyer. -/
def exDialogue : Dialogue := { label := 5, dialogueId := 11, isSeller := false }

/-- Example accept message targeting message id 7. -/
def exAccept : FipaMsg := { msgId := 8, dialogueId := 11, destination := 1, target := 7 }

/-- Example decline message targeting message id 7. -/
def exDecline : FipaMsg := { msgId := 8, dialogueId := 11, destination := 1, target := 7 }

/-- Example received proposal: pay 1 for one unit of good 0. -/
def exPropose : ProposeMsg :=
  { msgId := 12, dialogueId := 11, destination := 1, target := 9
    amount := 1, quantitiesByGood := [1, 0] }

/-! Helper lemmas about the loop functions of the embedding. -/

theorem length_updAt {α : Type} (f : α → α) :
    ∀ (l : List α) (i : ℕ), (updAt i f l).length = l.length := by
  intro l
  induction l with
  | nil => intro i; cases i <;> rfl
  | cons x xs ih => intro i; cases i with
    | zero => rfl
    | succ j => simpa [updAt] using ih j

theorem getD_updAt_self {α : Type} (f : α → α) (d : α) :
    ∀ (l : List α) (i : ℕ), i < l.length → (updAt i f l).getD i d = f (l.getD i d) := by
  intro l
  induction l with
  | nil => intro i hi; simp at hi
  | cons x xs ih => intro i hi; cases i with
    | zero => rfl
    | succ j => simpa [updAt] using ih j (by simpa using hi)

theorem getD_updAt_ne {α : Type} (f : α → α) (d : α) :
    ∀ (l : List α) (i j : ℕ), i ≠ j → (updAt i f l).getD j d = l.getD j d := by
  intro l
  induction l with
  | nil => intro i j _; cases i <;> rfl
  | cons x xs ih =>
    intro i j hij
    cases i with
    | zero => cases j with
      | zero => exact absurd rfl hij
      | succ j1 => rfl
    | succ i1 => cases j with
      | zero => rfl
      | succ j1 => simpa [updAt] using ih i1 j1 (fun h => hij (by rw [h]))

theorem all_updAt {α : Type} (P : α → Prop) (f : α → α)
    (hf : ∀ x, P x → P (f x)) :
    ∀ (l : List α) (i : ℕ), (∀ x ∈ l, P x) → ∀ x ∈ updAt i f l, P x := by
  intro l
  induction l with
  | nil => intro i _ x hx; cases i <;> simp [updAt] at hx
  | cons y ys ih =>
    intro i hall x hx
    cases i with
    | zero =>
      rcases (List.mem_cons).1 hx with h1 | h1
      · exact h1 ▸ hf y (hall y (List.mem_cons_self y ys))
      · exact hall x (List.mem_cons_of_mem y h1)
    | succ j =>
      rcases (List.mem_cons).1 hx with h1 | h1
      · exact h1 ▸ hall y (List.mem_cons_self y ys)
      · exact ih j (fun z hz => hall z (List.mem_cons_of_mem y hz)) x h1

theorem sum_map_updAt {α β : Type} [AddCommGroup β] (g : α → β) (f : α → α) (d : α) :
    ∀ (l : List α) (i : ℕ), i < l.length →
      ((updAt i f l).map g).sum = (l.map g).sum + (g (f (l.getD i d)) - g (l.getD i d)) := by
  intro l
  induction l with
  | nil => intro i hi; simp at hi
  | cons x xs ih =>
    intro i hi
    cases i with
    | zero => simp [updAt]; abel
    | succ j =>
      have hj : j < xs.length := by simpa using hi
      simp only [updAt, List.map_cons, List.sum_cons, ih j hj, List.getD_cons_succ]
      abel

theorem getD_mem {α : Type} (l : List α) (i : ℕ) (d : α) (hi : i < l.length) :
    l.getD i d ∈ l := by
  rw [List.getD_eq_getElem l d hi]
  exact List.getElem_mem hi

theorem length_addQ (sgn : ℤ) :
    ∀ (h : List ℤ) (qs : List ℕ), (addQ sgn h qs).length = h.length := by
  intro h
  induction h with
  | nil => intro qs; cases qs <;> rfl
  | cons x xs ih => intro qs; cases qs with
    | nil => rfl
    | cons q qs1 => simpa [addQ] using ih qs1

theorem getD_addQ (sgn : ℤ) :
    ∀ (h : List ℤ) (qs : List ℕ), qs.length ≤ h.length →
      ∀ j, (addQ sgn h qs).getD j 0 = h.getD j 0 + sgn * (qs.getD j 0 : ℤ) := by
  intro h
  induction h with
  | nil =>
    intro qs hq j
    have : qs = [] := List.length_eq_zero.1 (Nat.le_zero.1 (by simpa using hq))
    subst this; simp [addQ]
  | cons x xs ih =>
    intro qs hq j
    cases qs with
    | nil => simp [addQ]
    | cons q qs1 =>
      cases j with
      | zero => simp [addQ]
      | succ j1 =>
        have hq1 : qs1.length ≤ xs.length := by simpa using hq
        simpa [addQ] using ih qs1 hq1 j1

theorem holdingsGeq_iff :
    ∀ (h : List ℤ) (qs : List ℕ),
      holdingsGeq h qs = true ↔ ∀ i < qs.length, (qs.getD i 0 : ℤ) ≤ h.getD i 0 := by
  intro h qs
  induction qs generalizing h with
  | nil => simp [holdingsGeq]
  | cons q qs1 ih =>
    cases h with
    | nil =>
      rw [show holdingsGeq [] (q :: qs1) = (decide ((q : ℤ) ≤ 0) && holdingsGeq [] qs1) from rfl]
      rw [Bool.and_eq_true, decide_eq_true_eq, ih []]
      constructor
      · rintro ⟨h0, hrest⟩ i hi
        cases i with
        | zero => simpa using h0
        | succ i1 => simpa using hrest i1 (by simpa using hi)
      · intro hall
        refine ⟨by simpa using hall 0 (Nat.succ_pos _), fun i hi => ?_⟩
        simpa using hall (i + 1) (by simpa using hi)
    | cons x xs =>
      rw [show holdingsGeq (x :: xs) (q :: qs1) = (decide ((q : ℤ) ≤ x) && holdingsGeq xs qs1) from rfl]
      rw [Bool.and_eq_true, decide_eq_true_eq, ih xs]
      constructor
      · rintro ⟨h0, hrest⟩ i hi
        cases i with
        | zero => simpa using h0
        | succ i1 => simpa using hrest i1 (by simpa using hi)
      · intro hall
        refine ⟨by simpa using hall 0 (Nat.succ_pos _), fun i hi => ?_⟩
        simpa using hall (i + 1) (by simpa using hi)

theorem getD_nonneg_of_all {h : List ℤ} (hall : ∀ x ∈ h, (0 : ℤ) ≤ x) :
    ∀ i, 0 ≤ h.getD i 0 := by
  intro i
  by_cases hi : i < h.length
  · exact hall _ (getD_mem h i 0 hi)
  · rw [List.getD_eq_default h 0 (Nat.le_of_not_lt hi)]

theorem getD_updPrices_pos (p : ℚ) :
    ∀ (gs : List GoodState) (qs : List ℕ) (i : ℕ) (d : GoodState),
      0 < qs.getD i 0 → i < gs.length →
      (updPrices p gs qs).getD i d = { price := p } := by
  intro gs
  induction gs with
  | nil => intro qs i d _ hi; simp at hi
  | cons g1 gs1 ih =>
    intro qs i d hq hi
    cases qs with
    | nil => simp at hq
    | cons q qs1 =>
      cases i with
      | zero =>
        have : 0 < q := by simpa using hq
        simp [updPrices, this]
      | succ i1 =>
        have hq1 : 0 < qs1.getD i1 0 := by simpa using hq
        have hi1 : i1 < gs1.length := by simpa using hi
        simpa [updPrices] using ih qs1 i1 d hq1 hi1

theorem getD_updPrices_zero (p : ℚ) :
    ∀ (gs : List GoodState) (qs : List ℕ) (i : ℕ) (d : GoodState),
      qs.getD i 0 = 0 → (updPrices p gs qs).getD i d = gs.getD i d := by
  intro gs
  induction gs with
  | nil => intro qs i d _; cases qs <;> rfl
  | cons g1 gs1 ih =>
    intro qs i d hq
    cases qs with
    | nil => rfl
    | cons q qs1 =>
      cases i with
      | zero =>
        have : q = 0 := by simpa using hq
        simp [updPrices, this]
      | succ i1 =>
        have hq1 : qs1.getD i1 0 = 0 := by simpa using hq
        simpa [updPrices] using ih qs1 i1 d hq1

theorem sum_filter_pos :
    ∀ l : List ℕ, (l.filter fun q => 0 < q).sum = l.sum := by
  intro l
  induction l with
  | nil => rfl
  | cons q qs ih =>
    cases q with
    | zero => simpa [List.filter] using ih
    | succ q1 => simpa [List.filter, Nat.succ_pos] using ih

theorem getD_updObs (obs : Bool × ℚ) :
    ∀ (ms : List GoodPriceModel) (qs : List ℕ) (i : ℕ),
      (updObs obs ms qs).getD i [] =
        if 0 < qs.getD i 0 ∧ i < ms.length
        then ms.getD i [] ++ [obs] else ms.getD i [] := by
  intro ms
  induction ms with
  | nil =>
    intro qs i
    have : ¬ (0 < qs.getD i 0 ∧ i < ([] : List GoodPriceModel).length) := by simp
    rw [if_neg this]; cases qs <;> rfl
  | cons m ms1 ih =>
    intro qs i
    cases qs with
    | nil =>
      have : ¬ (0 < ([] : List ℕ).getD i 0 ∧ i < (m :: ms1).length) := by simp
      rw [if_neg this]; rfl
    | cons q qs1 =>
      cases i with
      | zero =>
        by_cases hq : 0 < q
        · simp [updObs, hq]
        · simp [updObs, hq]
      | succ i1 =>
        have := ih qs1 i1
        simp only [updObs, List.getD_cons_succ, this, List.length_cons, List.getD_cons_succ]
        by_cases hq : 0 < qs1.getD i1 0 ∧ i1 < ms1.length
        · rw [if_pos hq, if_pos ⟨hq.1, Nat.succ_lt_succ hq.2⟩]
        · rw [if_neg hq, if_neg (fun hc => hq ⟨hc.1, Nat.lt_of_succ_lt_succ hc.2⟩)]

theorem alistLookup_append_self {κ α : Type} [DecidableEq κ] (k : κ) (a : α) :
    ∀ l : List (κ × α), alistLookup k l = none →
      alistLookup k (l ++ [(k, a)]) = some a := by
  intro l
  induction l with
  | nil => intro _; simp [alistLookup]
  | cons p rest ih =>
    intro h
    rw [show alistLookup k (p :: rest) = (if p.1 = k then some p.2 else alistLookup k rest) from rfl] at h
    by_cases hk : p.1 = k
    · rw [if_pos hk] at h; exact absurd h (by simp)
    · rw [if_neg hk] at h
      rw [List.cons_append,
        show alistLookup k (p :: (rest ++ [(k, a)])) =
          (if p.1 = k then some p.2 else alistLookup k (rest ++ [(k, a)])) from rfl,
        if_neg hk]
      exact ih h

theorem getD_pipeline_buyer {α : Type} (d : α) {A : List α} {b s : ℕ}
    {fb1 fs1 fb2 fs2 : α → α}
    (hb : b < A.length) (hbs : b ≠ s) :
    (updAt s fs2 (updAt b fb2 (updAt s fs1 (updAt b fb1 A)))).getD b d =
      fb2 (fb1 (A.getD b d)) := by
  rw [getD_updAt_ne fs2 d _ s b (fun h => hbs h.symm),
    getD_updAt_self fb2 d _ b
      (by rw [length_updAt, length_updAt]; exact hb),
    getD_updAt_ne fs1 d _ s b (fun h => hbs h.symm),
    getD_updAt_self fb1 d A b hb]

theorem getD_pipeline_seller {α : Type} (d : α) {A : List α} {b s : ℕ}
    {fb1 fs1 fb2 fs2 : α → α}
    (hs : s < A.length) (hbs : b ≠ s) :
    (updAt s fs2 (updAt b fb2 (updAt s fs1 (updAt b fb1 A)))).getD s d =
      fs2 (fs1 (A.getD s d)) := by
  rw [getD_updAt_self fs2 d _ s
      (by rw [length_updAt, length_updAt, length_updAt]; exact hs),
    getD_updAt_ne fb2 d _ b s hbs,
    getD_updAt_self fs1 d _ s (by rw [length_updAt]; exact hs),
    getD_updAt_ne fb1 d A b s hbs]

theorem settleTransaction_parts {g g1 : Game} {tx : Transaction}
    (h : g.settleTransaction tx = some g1) :
    g1.configuration = g.configuration ∧ g1.initialization = g.initialization ∧
      g1.transactions = g.transactions ++ [tx] := by
  by_cases hv : g.isTransactionValid tx = true
  · simp only [Game.settleTransaction, hv, if_true, Option.some.injEq] at h
    subst h
    exact ⟨rfl, rfl, rfl⟩
  · simp [Game.settleTransaction, hv] at h

theorem replay_parts :
    ∀ (txs : List Transaction) (g g1 : Game), g.replay txs = some g1 →
      g1.configuration = g.configuration ∧ g1.initialization = g.initialization ∧
        g1.transactions = g.transactions ++ txs := by
  intro txs
  induction txs with
  | nil =>
    intro g g1 h
    simp only [Game.replay, Option.some.injEq] at h
    subst h
    exact ⟨rfl, rfl, by simp⟩
  | cons tx rest ih =>
    intro g g1 h
    simp only [Game.replay] at h
    cases hst : g.settleTransaction tx with
    | none => rw [hst] at h; cases h
    | some g2 =>
      rw [hst] at h
      obtain ⟨hc2, hi2, ht2⟩ := settleTransaction_parts hst
      obtain ⟨hc1, hi1, ht1⟩ := ih g2 g1 h
      refine ⟨hc1.trans hc2, hi1.trans hi2, ?_⟩
      rw [ht1, ht2, List.append_assoc]
      rfl

theorem settle_some_valid {g g1 : Game} {tx : Transaction}
    (h : g.settleTransaction tx = some g1) : g.isTransactionValid tx = true := by
  cases hv : g.isTransactionValid tx with
  | true => rfl
  | false => simp [Game.settleTransaction, hv] at h

theorem valid_seller_holdings {g : Game} {tx : Transaction}
    (h : g.isTransactionValid tx = true) :
    ∀ i < tx.quantitiesByGood.length,
      (tx.quantitiesByGood.getD i 0 : ℤ) ≤
        (g.agentStates.getD tx.seller default).currentHoldings.getD i 0 := by
  simp only [Game.isTransactionValid] at h
  by_cases hlt : (g.agentStates.getD tx.buyer default).balance <
      tx.amount + round2 (g.configuration.txFee / 2)
  · rw [if_pos hlt] at h
    exact absurd h (by simp)
  · rw [if_neg hlt] at h
    exact (holdingsGeq_iff _ _).1 h

theorem all_nonneg_of_getD {h : List ℤ} (hall : ∀ j, 0 ≤ h.getD j 0) :
    ∀ x ∈ h, (0 : ℤ) ≤ x := by
  intro x hx
  obtain ⟨⟨j, hj⟩, rfl⟩ := List.mem_iff_get.1 hx
  have h1 := hall j
  rw [List.getD_eq_getElem _ _ hj] at h1
  simpa using h1

theorem getD_pipeline_same {α : Type} (d : α) {A : List α} {b : ℕ}
    {f1 f2 f3 f4 : α → α} (hb : b < A.length) :
    (updAt b f4 (updAt b f3 (updAt b f2 (updAt b f1 A)))).getD b d =
      f4 (f3 (f2 (f1 (A.getD b d)))) := by
  rw [getD_updAt_self f4 d _ b (by simp only [length_updAt]; exact hb),
    getD_updAt_self f3 d _ b (by simp only [length_updAt]; exact hb),
    getD_updAt_self f2 d _ b (by rw [length_updAt]; exact hb),
    getD_updAt_self f1 d A b hb]

theorem getD_pipeline_other {α : Type} (d : α) {A : List α} {b s k : ℕ}
    {f1 f2 f3 f4 : α → α} (hkb : b ≠ k) (hks : s ≠ k) :
    (updAt s f4 (updAt b f3 (updAt s f2 (updAt b f1 A)))).getD k d = A.getD k d := by
  rw [getD_updAt_ne f4 d _ s k hks, getD_updAt_ne f3 d _ b k hkb,
    getD_updAt_ne f2 d _ s k hks, getD_updAt_ne f1 d A b k hkb]

/-- Settlement preserves non-negative holdings: on a well-formed game
whose holdings are all non-negative, any game produced by
settle_transaction again has only non-negative holdings (with the
positivity of initial endowments this makes non-negative holdings an
invariant of every reachable game state). -/
theorem settle_preserves_nonneg (g : Game) (tx : Transaction) (g1 : Game)
    (hset : g.settleTransaction tx = some g1)
    (hlen : ∀ st ∈ g.agentStates, tx.quantitiesByGood.length ≤ st.currentHoldings.length)
    (hnn : ∀ st ∈ g.agentStates, ∀ x ∈ st.currentHoldings, (0 : ℤ) ≤ x) :
    ∀ st ∈ g1.agentStates, ∀ x ∈ st.currentHoldings, (0 : ℤ) ≤ x := by
  have hvalid := settle_some_valid hset
  have hsell := valid_seller_holdings hvalid
  simp only [Game.settleTransaction, hvalid, if_true, Option.some.injEq] at hset
  subst hset
  intro st hst
  obtain ⟨⟨k, hk⟩, rfl⟩ := List.mem_iff_get.1 hst
  simp only [List.get_eq_getElem]
  rw [← List.getD_eq_getElem _ default hk]
  have hk0 : k < g.agentStates.length := by
    simpa only [length_updAt] using hk
  have horig : g.agentStates.getD k default ∈ g.agentStates := getD_mem _ _ _ hk0
  have hnn0 : ∀ j, (0 : ℤ) ≤ (g.agentStates.getD k default).currentHoldings.getD j 0 :=
    getD_nonneg_of_all (hnn _ horig)
  have hlen0 : tx.quantitiesByGood.length ≤
      (g.agentStates.getD k default).currentHoldings.length := hlen _ horig
  by_cases hkb : tx.buyer = k
  · by_cases hks : tx.seller = k
    · rw [hkb, hks]
      rw [getD_pipeline_same default hk0]
      refine all_nonneg_of_getD (fun j => ?_)
      dsimp only
      rw [getD_addQ (-1) _ _ (by rw [length_addQ]; exact hlen0) j,
        getD_addQ 1 _ _ hlen0 j]
      have := hnn0 j
      omega
    · rw [hkb]
      rw [getD_updAt_ne _ default _ _ _ hks,
        getD_updAt_self _ default _ _ (by simp only [length_updAt]; exact hk0),
        getD_updAt_ne _ default _ _ _ hks,
        getD_updAt_self _ default _ _ hk0]
      refine all_nonneg_of_getD (fun j => ?_)
      dsimp only
      rw [getD_addQ 1 _ _ hlen0 j]
      have h1 := hnn0 j
      have h2 : (0 : ℤ) ≤ (tx.quantitiesByGood.getD j 0 : ℤ) := Int.ofNat_nonneg _
      omega
  · by_cases hks : tx.seller = k
    · rw [hks] at hsell ⊢
      rw [getD_updAt_self _ default _ _
          (by simp only [length_updAt]; exact hk0),
        getD_updAt_ne _ default _ _ _ hkb,
        getD_updAt_self _ default _ _ (by rw [length_updAt]; exact hk0),
        getD_updAt_ne _ default _ _ _ hkb]
      refine all_nonneg_of_getD (fun j => ?_)
      dsimp only
      rw [getD_addQ (-1) _ _ hlen0 j]
      have h1 : (tx.quantitiesByGood.getD j 0 : ℤ) ≤
          (g.agentStates.getD k default).currentHoldings.getD j 0 := by
        by_cases hj : j < tx.quantitiesByGood.length
        · exact hsell j hj
        · rw [List.getD_eq_default _ _ (Nat.le_of_not_lt hj)]
          exact hnn0 j
      omega
    · rw [getD_pipeline_other default hkb hks]
      exact hnn _ horig

/-- Fresh games have non-negative holdings: the endowment rows of a
game initialization are positive by its consistency check, hence the
initial agent states hold only non-negative quantities. -/
theorem mkGame_nonneg (c : GameConfiguration) (ini : GameInitialization)
    (h : ∀ row ∈ ini.endowments, ∀ x ∈ row, (0 : ℤ) ≤ x) :
    ∀ st ∈ (mkGame c ini).agentStates, ∀ x ∈ st.currentHoldings, (0 : ℤ) ≤ x := by
  intro st hst
  simp only [mkGame, List.mem_map] at hst
  obtain ⟨i, -, rfl⟩ := hst
  intro x hx
  by_cases hi : i < ini.endowments.length
  · exact h _ (getD_mem _ _ _ hi) x hx
  · rw [show ini.endowments.getD i [] = [] from
      List.getD_eq_default _ _ (Nat.le_of_not_lt hi)] at hx
    cases hx

/-- Claim C1: for every transaction accepted by is_transaction_valid,
settle_transaction applies exactly these effects as one unit: the
transaction is appended to the log; for every good with nonzero traded
quantity the quantity is added to the buyer's holding and subtracted
from the seller's holding at that position; for every good with positive
quantity the recorded price becomes amount divided by the sum of all
positive traded quantities; the buyer is debited by amount plus the
half-fee rounded to 2 decimals and the seller credited by amount minus
that half-fee. -/
theorem settle_applies_effects (g : Game) (tx : Transaction)
    (hvalid : g.isTransactionValid tx = true)
    (hb : tx.buyer < g.agentStates.length)
    (hs : tx.seller < g.agentStates.length)
    (hbs : tx.buyer ≠ tx.seller)
    (hlen : ∀ st ∈ g.agentStates, tx.quantitiesByGood.length ≤ st.currentHoldings.length) :
    ∃ g', g.settleTransaction tx = some g' ∧
      g'.transactions = g.transactions ++ [tx] ∧
      (∀ i, tx.quantitiesByGood.getD i 0 ≠ 0 →
        (g'.agentStates.getD tx.buyer default).currentHoldings.getD i 0 =
          (g.agentStates.getD tx.buyer default).currentHoldings.getD i 0 +
            (tx.quantitiesByGood.getD i 0 : ℤ) ∧
        (g'.agentStates.getD tx.seller default).currentHoldings.getD i 0 =
          (g.agentStates.getD tx.seller default).currentHoldings.getD i 0 -
            (tx.quantitiesByGood.getD i 0 : ℤ)) ∧
      (∀ i, 0 < tx.quantitiesByGood.getD i 0 → i < g.goodStates.length →
        (g'.goodStates.getD i default).price =
          tx.amount / (((tx.quantitiesByGood.filter fun q => 0 < q).sum : ℕ) : ℚ)) ∧
      (g'.agentStates.getD tx.buyer default).balance =
        (g.agentStates.getD tx.buyer default).balance -
          (tx.amount + round2 (g.configuration.txFee / 2)) ∧
      (g'.agentStates.getD tx.seller default).balance =
        (g.agentStates.getD tx.seller default).balance +
          (tx.amount - round2 (g.configuration.txFee / 2)) := by
  have hqb : tx.quantitiesByGood.length ≤
      (g.agentStates.getD tx.buyer default).currentHoldings.length :=
    hlen _ (getD_mem _ _ _ hb)
  have hqs : tx.quantitiesByGood.length ≤
      (g.agentStates.getD tx.seller default).currentHoldings.length :=
    hlen _ (getD_mem _ _ _ hs)
  simp only [Game.settleTransaction, hvalid, if_true]
  refine ⟨_, rfl, rfl, ?_, ?_, ?_, ?_⟩
  · intro i hqi
    constructor
    · rw [getD_pipeline_buyer default hb hbs]
      simp only []
      rw [getD_addQ 1 _ _ hqb i]
      ring
    · rw [getD_pipeline_seller default hs hbs]
      simp only []
      rw [getD_addQ (-1) _ _ hqs i]
      ring
  · intro i hqi hilen
    rw [getD_updPrices_pos _ _ _ _ _ hqi hilen, sum_filter_pos]
  · rw [getD_pipeline_buyer default hb hbs]
  · rw [getD_pipeline_seller default hs hbs]

/-- Witness for C1 at the concrete example game and transaction. -/
theorem settle_applies_effects_witness :
    ∃ g', exGame.settleTransaction exTx = some g' ∧
      g'.transactions = exGame.transactions ++ [exTx] ∧
      (∀ i, exTx.quantitiesByGood.getD i 0 ≠ 0 →
        (g'.agentStates.getD exTx.buyer default).currentHoldings.getD i 0 =
          (exGame.agentStates.getD exTx.buyer default).currentHoldings.getD i 0 +
            (exTx.quantitiesByGood.getD i 0 : ℤ) ∧
        (g'.agentStates.getD exTx.seller default).currentHoldings.getD i 0 =
          (exGame.agentStates.getD exTx.seller default).currentHoldings.getD i 0 -
            (exTx.quantitiesByGood.getD i 0 : ℤ)) ∧
      (∀ i, 0 < exTx.quantitiesByGood.getD i 0 → i < exGame.goodStates.length →
        (g'.goodStates.getD i default).price =
          exTx.amount / (((exTx.quantitiesByGood.filter fun q => 0 < q).sum : ℕ) : ℚ)) ∧
      (g'.agentStates.getD exTx.buyer default).balance =
        (exGame.agentStates.getD exTx.buyer default).balance -
          (exTx.amount + round2 (exGame.configuration.txFee / 2)) ∧
      (g'.agentStates.getD exTx.seller default).balance =
        (exGame.agentStates.getD exTx.seller default).balance +
          (exTx.amount - round2 (exGame.configuration.txFee / 2)) :=
  settle_applies_effects exGame exTx
    (by norm_num [Game.isTransactionValid, exGame, exTx, mkGame, exConfiguration,
      exInitialization, Transaction.buyer, Transaction.seller, holdingsGeq, round2, round_eq,
      List.range_succ])
    (by norm_num [exGame, exTx, mkGame, exConfiguration, exInitialization, Transaction.buyer,
      List.range_succ])
    (by norm_num [exGame, exTx, mkGame, exConfiguration, exInitialization, Transaction.seller,
      List.range_succ])
    (by norm_num [exTx, Transaction.buyer, Transaction.seller])
    (by norm_num [exGame, exTx, mkGame, exConfiguration, exInitialization, List.range_succ])

/-- Claim C2: for every game state whose seller holdings are
non-negative (an invariant of every reachable state) and every
transaction, is_transaction_valid returns true exactly when the buyer's
balance is at least amount plus the rounded half-fee and, for every good
with positive traded quantity, the seller's holding at that position is
at least the traded quantity.  The validity check is a pure function of
the game: it produces a Boolean and no new state. -/
theorem valid_iff (g : Game) (tx : Transaction)
    (hnn : ∀ x ∈ (g.agentStates.getD tx.seller default).currentHoldings, (0 : ℤ) ≤ x) :
    g.isTransactionValid tx = true ↔
      tx.amount + round2 (g.configuration.txFee / 2) ≤
        (g.agentStates.getD tx.buyer default).balance ∧
      ∀ i < tx.quantitiesByGood.length, 0 < tx.quantitiesByGood.getD i 0 →
        (tx.quantitiesByGood.getD i 0 : ℤ) ≤
          (g.agentStates.getD tx.seller default).currentHoldings.getD i 0 := by
  simp only [Game.isTransactionValid]
  by_cases hlt : (g.agentStates.getD tx.buyer default).balance <
      tx.amount + round2 (g.configuration.txFee / 2)
  · rw [if_pos hlt]
    simp only [Bool.false_eq_true, false_iff]
    intro hc
    exact absurd hc.1 (not_le.2 hlt)
  · rw [if_neg hlt, holdingsGeq_iff]
    constructor
    · intro hall
      exact ⟨not_lt.1 hlt, fun i hi _ => hall i hi⟩
    · rintro ⟨-, hpos⟩ i hi
      rcases Nat.eq_zero_or_pos (tx.quantitiesByGood.getD i 0) with hz | hp
      · rw [hz]
        exact_mod_cast getD_nonneg_of_all hnn i
      · exact hpos i hi hp

/-- Witness for C2 at the concrete example game and transaction. -/
theorem valid_iff_witness :
    exGame.isTransactionValid exTx = true ↔
      exTx.amount + round2 (exGame.configuration.txFee / 2) ≤
        (exGame.agentStates.getD exTx.buyer default).balance ∧
      ∀ i < exTx.quantitiesByGood.length, 0 < exTx.quantitiesByGood.getD i 0 →
        (exTx.quantitiesByGood.getD i 0 : ℤ) ≤
          (exGame.agentStates.getD exTx.seller default).currentHoldings.getD i 0 :=
  valid_iff exGame exTx
    (by norm_num [exGame, exTx, mkGame, exConfiguration, exInitialization, Transaction.seller,
      List.range_succ])

/-- Claim C4: settling a transaction that fails is_transaction_valid
fails (the source's assertion raises before any mutation) and produces
no new game state, so no log entry, balance, holding or price changes:
the settlement is modelled as a function returning none on failure, and
the input game is untouched. -/
theorem settle_invalid_none (g : Game) (tx : Transaction)
    (h : g.isTransactionValid tx = false) :
    g.settleTransaction tx = none := by
  simp [Game.settleTransaction, h]

/-- Witness for C4: the example transaction whose amount exceeds the
buyer's balance settles to none. -/
theorem settle_invalid_none_witness : exGame.settleTransaction exBadTx = none :=
  settle_invalid_none exGame exBadTx
    (by norm_num [Game.isTransactionValid, exGame, exBadTx, mkGame, exConfiguration,
      exInitialization, Transaction.buyer, Transaction.seller, holdingsGeq, round2, round_eq,
      List.range_succ])

theorem sum_bal_updAt_sub (c : ℚ) {l : List AgentState} {i : ℕ} (h : i < l.length) :
    ((updAt i (fun st => { st with balance := st.balance - c }) l).map
      AgentState.balance).sum = (l.map AgentState.balance).sum - c := by
  rw [sum_map_updAt AgentState.balance _ default l i h]
  simp only []
  ring

theorem sum_bal_updAt_add (c : ℚ) {l : List AgentState} {i : ℕ} (h : i < l.length) :
    ((updAt i (fun st => { st with balance := st.balance + c }) l).map
      AgentState.balance).sum = (l.map AgentState.balance).sum + c := by
  rw [sum_map_updAt AgentState.balance _ default l i h]
  simp only []
  ring

theorem sum_bal_updAt_holdings (sgn : ℤ) (qs : List ℕ) {l : List AgentState} {i : ℕ}
    (h : i < l.length) :
    ((updAt i (fun st => { st with currentHoldings := addQ sgn st.currentHoldings qs }) l).map
      AgentState.balance).sum = (l.map AgentState.balance).sum := by
  rw [sum_map_updAt AgentState.balance _ default l i h]
  simp only []
  ring

theorem col_updAt_bal_sub (c : ℚ) (j : ℕ) {l : List AgentState} {i : ℕ} (h : i < l.length) :
    ((updAt i (fun st => { st with balance := st.balance - c }) l).map
      fun st => st.currentHoldings.getD j 0).sum =
      (l.map fun st => st.currentHoldings.getD j 0).sum := by
  rw [sum_map_updAt (fun st => st.currentHoldings.getD j 0) _ default l i h]
  simp only []
  ring

theorem col_updAt_bal_add (c : ℚ) (j : ℕ) {l : List AgentState} {i : ℕ} (h : i < l.length) :
    ((updAt i (fun st => { st with balance := st.balance + c }) l).map
      fun st => st.currentHoldings.getD j 0).sum =
      (l.map fun st => st.currentHoldings.getD j 0).sum := by
  rw [sum_map_updAt (fun st => st.currentHoldings.getD j 0) _ default l i h]
  simp only []
  ring

theorem col_updAt_holdings (sgn : ℤ) (qs : List ℕ) (j : ℕ) {l : List AgentState} {i : ℕ}
    (h : i < l.length)
    (hq : qs.length ≤ (l.getD i default).currentHoldings.length) :
    ((updAt i (fun st => { st with currentHoldings := addQ sgn st.currentHoldings qs }) l).map
      fun st => st.currentHoldings.getD j 0).sum =
      (l.map fun st => st.currentHoldings.getD j 0).sum + sgn * (qs.getD j 0 : ℤ) := by
  rw [sum_map_updAt (fun st => st.currentHoldings.getD j 0) _ default l i h]
  simp only []
  rw [getD_addQ sgn _ _ hq j]
  ring

/-- Claim C6 counterexample: with transaction fee 0.03, settling the
valid example transaction changes the sum of balances by twice the
rounded half-fee 0.02, not by the fee 0.03, refuting the claim that
the sum of balances after settlement equals the sum before minus the
transaction fee. -/
theorem settle_conservation_counterexample :
    ¬ ((exGame.settleTransaction exTx).map sumBalances =
        some (sumBalances exGame - exGame.configuration.txFee)) := by
  norm_num [Game.settleTransaction, Game.isTransactionValid, sumBalances, exGame, exTx, mkGame,
    exConfiguration, exInitialization, updAt, addQ, updPrices, holdingsGeq, round2, round_eq,
    Transaction.buyer, Transaction.seller, List.range_succ]

/-- Claim C6 (amended): settling a valid transaction decreases the sum
of all balances by exactly twice the half-fee rounded to 2 decimals
(which equals the transaction fee only when the half-fee is exactly
representable with 2 decimals) and, for every good, leaves the total
holdings summed over all agents unchanged. -/
theorem settle_conservation_amended (g : Game) (tx : Transaction)
    (hvalid : g.isTransactionValid tx = true)
    (hb : tx.buyer < g.agentStates.length)
    (hs : tx.seller < g.agentStates.length)
    (hlen : ∀ st ∈ g.agentStates, tx.quantitiesByGood.length ≤ st.currentHoldings.length) :
    ∃ g', g.settleTransaction tx = some g' ∧
      sumBalances g' = sumBalances g - 2 * round2 (g.configuration.txFee / 2) ∧
      ∀ j, colHoldings g' j = colHoldings g j := by
  have hall1 : ∀ st ∈ updAt tx.buyer
      (fun st => { st with currentHoldings := addQ 1 st.currentHoldings tx.quantitiesByGood })
      g.agentStates, tx.quantitiesByGood.length ≤ st.currentHoldings.length := by
    refine all_updAt _ _ (fun x hx => ?_) g.agentStates tx.buyer hlen
    simpa [length_addQ] using hx
  simp only [Game.settleTransaction, hvalid, if_true]
  refine ⟨_, rfl, ?_, ?_⟩
  · simp only [sumBalances]
    rw [sum_bal_updAt_add, sum_bal_updAt_sub, sum_bal_updAt_holdings, sum_bal_updAt_holdings]
    · ring
    · exact hb
    · simpa [length_updAt] using hs
    · simpa [length_updAt] using hb
    · simpa [length_updAt] using hs
  · intro j
    simp only [colHoldings]
    rw [col_updAt_bal_add, col_updAt_bal_sub, col_updAt_holdings, col_updAt_holdings]
    · ring
    · exact hb
    · exact hlen _ (getD_mem _ _ _ hb)
    · simpa [length_updAt] using hs
    · exact hall1 _ (getD_mem _ _ _ (by simpa [length_updAt] using hs))
    · simpa [length_updAt] using hb
    · simpa [length_updAt] using hs

/-- Witness for the amended C6 at the concrete example game. -/
theorem settle_conservation_amended_witness :
    ∃ g', exGame.settleTransaction exTx = some g' ∧
      sumBalances g' = sumBalances exGame - 2 * round2 (exGame.configuration.txFee / 2) ∧
      ∀ j, colHoldings g' j = colHoldings exGame j :=
  settle_conservation_amended exGame exTx
    (by norm_num [Game.isTransactionValid, exGame, exTx, mkGame, exConfiguration,
      exInitialization, Transaction.buyer, Transaction.seller, holdingsGeq, round2, round_eq,
      List.range_succ])
    (by norm_num [exGame, exTx, mkGame, exConfiguration, exInitialization, Transaction.buyer,
      List.range_succ])
    (by norm_num [exGame, exTx, mkGame, exConfiguration, exInitialization, Transaction.seller,
      List.range_succ])
    (by norm_num [exGame, exTx, mkGame, exConfiguration, exInitialization, List.range_succ])

/-- Claim C5: a game built by settling a sequence of valid transactions
on a fresh game serializes through to_dict and deserializes through
from_dict (which replays the log through settlement in order) back to a
game equal to the original under Game.__eq__. -/
theorem game_roundtrip (c : GameConfiguration) (ini : GameInitialization)
    (txs : List Transaction) (g : Game)
    (h : (mkGame c ini).replay txs = some g) :
    Game.fromDict (Game.toDict g) = some g ∧ gameEq g g = true := by
  obtain ⟨hc, hi, ht⟩ := replay_parts txs (mkGame c ini) g h
  have hc1 : g.configuration = c := by simpa [mkGame] using hc
  have hi1 : g.initialization = ini := by simpa [mkGame] using hi
  have ht1 : g.transactions = txs := by simpa [mkGame] using ht
  constructor
  · simp only [Game.fromDict, Game.toDict, hc1, hi1, ht1]
    exact h
  · simp [gameEq]

/-- Witness for C5: the round trip at the settled example game. -/
theorem game_roundtrip_witness :
    Game.fromDict (Game.toDict exGame1) = some exGame1 ∧ gameEq exGame1 exGame1 = true :=
  game_roundtrip exConfiguration exInitialization [exTx] exGame1
    (by norm_num [Game.replay, Game.settleTransaction, Game.isTransactionValid, exGame1, exTx,
      mkGame, exConfiguration, exInitialization, updAt, addQ, updPrices, holdingsGeq, round2,
      round_eq, Transaction.buyer, Transaction.seller, List.range_succ])

theorem checkConsistent_iff (st : AgentState) (tx : Transaction) (fee : ℚ) :
    st.checkTransactionIsConsistent tx fee = true ↔
      ((tx.isSenderBuyer = true ∧ tx.amount + round2 (fee / 2) ≤ st.balance) ∨
        (tx.isSenderBuyer = false ∧ ∀ i < tx.quantitiesByGood.length,
          (tx.quantitiesByGood.getD i 0 : ℤ) ≤ st.currentHoldings.getD i 0)) := by
  unfold AgentState.checkTransactionIsConsistent
  cases htx : tx.isSenderBuyer with
  | true => simp [htx]
  | false => simp [htx, holdingsGeq_iff]

/-- Claim C3: the profitability check returns true exactly when, on the
agent's state after all currently held locks for the dialogue's role,
the transaction is internally consistent (as buyer the balance covers
amount plus the fee share; as seller the holdings cover the traded
quantities) and the marginal score delta of applying the transaction to
that locked state is at least 0. -/
theorem profitable_iff (u : List ℚ → List ℤ → ℚ) (gi : GameInstance)
    (tx : Transaction) (dlg : Dialogue) :
    isProfitableTransaction u gi tx dlg = true ↔
      ((tx.isSenderBuyer = true ∧
          tx.amount + round2 (gi.txFee / 2) ≤ (gi.stateAfterLocks dlg.isSeller).balance) ∨
        (tx.isSenderBuyer = false ∧
          ∀ i < tx.quantitiesByGood.length,
            (tx.quantitiesByGood.getD i 0 : ℤ) ≤
              (gi.stateAfterLocks dlg.isSeller).currentHoldings.getD i 0)) ∧
      0 ≤ (gi.stateAfterLocks dlg.isSeller).getScoreDiffFromTransaction u tx gi.txFee := by
  simp only [isProfitableTransaction]
  by_cases hcons :
      (gi.stateAfterLocks dlg.isSeller).checkTransactionIsConsistent tx gi.txFee = true
  · rw [hcons]
    simp only [Bool.not_true, Bool.false_eq_true, if_false, decide_eq_true_eq]
    constructor
    · intro hd
      exact ⟨(checkConsistent_iff _ _ _).1 hcons, hd⟩
    · intro hd
      exact hd.2
  · have hf : (gi.stateAfterLocks dlg.isSeller).checkTransactionIsConsistent tx gi.txFee
        = false := Bool.eq_false_iff.2 hcons
    rw [hf]
    simp only [Bool.not_false, if_true, Bool.false_eq_true, false_iff]
    intro hd
    exact hcons ((checkConsistent_iff _ _ _).2 hd.1)

/-- Witness for C3: the profitability equivalence instantiated at the
concrete example instance and the free transaction. -/
theorem profitable_iff_witness :
    isProfitableTransaction u0 exGi7 exTxFree exDialogue = true ↔
      ((exTxFree.isSenderBuyer = true ∧
          exTxFree.amount + round2 (exGi7.txFee / 2) ≤
            (exGi7.stateAfterLocks exDialogue.isSeller).balance) ∨
        (exTxFree.isSenderBuyer = false ∧
          ∀ i < exTxFree.quantitiesByGood.length,
            (exTxFree.quantitiesByGood.getD i 0 : ℤ) ≤
              (exGi7.stateAfterLocks exDialogue.isSeller).currentHoldings.getD i 0)) ∧
      0 ≤ (exGi7.stateAfterLocks exDialogue.isSeller).getScoreDiffFromTransaction u0
        exTxFree exGi7.txFee :=
  profitable_iff u0 exGi7 exTxFree exDialogue

theorem popPendingAcceptance_lookup {lm lm1 : LockManager} {label msgId : ℕ}
    {tx : Transaction}
    (h : lm.popPendingAcceptance label msgId = some (tx, lm1)) :
    alistLookup (label, msgId) lm.pendingTxAcceptances = some tx := by
  unfold LockManager.popPendingAcceptance at h
  cases hl : alistLookup (label, msgId) lm.pendingTxAcceptances with
  | none => rw [hl] at h; cases h
  | some tx0 =>
    rw [hl] at h
    injection h with h1
    have h2 : tx0 = tx := congrArg Prod.fst h1
    rw [← h2]

theorem popPendingAcceptance_eq {lm lm1 : LockManager} {label msgId : ℕ}
    {tx : Transaction}
    (h : lm.popPendingAcceptance label msgId = some (tx, lm1)) :
    lm1 = { lm with pendingTxAcceptances := alistErase (label, msgId) lm.pendingTxAcceptances } := by
  unfold LockManager.popPendingAcceptance at h
  cases hl : alistLookup (label, msgId) lm.pendingTxAcceptances with
  | none => rw [hl] at h; cases h
  | some tx0 =>
    rw [hl] at h
    injection h with h1
    exact (congrArg Prod.snd h1).symm

/-- Claim C7: on an Accept, when the accept's target matches a pending
acceptance for the dialogue, the handler pops it and answers exactly one
outbound item, the serialized transaction addressed to the settlement
authority; otherwise it pops the pending proposal at the target and, if
that transaction is still profitable, adds a lock and answers exactly
two outbound items (the serialized transaction to the settlement
authority and an Accept echoed to the counterparty), and if it is no
longer profitable it answers a single Decline. -/
theorem accept_cases (u : List ℚ → List ℤ → ℚ) (gi : GameInstance) (accept : FipaMsg)
    (dlg : Dialogue) :
    (∀ tx lm1, gi.lockManager.popPendingAcceptance dlg.label accept.target = some (tx, lm1) →
      onAccept u gi accept dlg = some ({ gi with lockManager := lm1 },
        [OutItem.byteMessage (accept.msgId + 1) accept.dialogueId gi.controllerPbk tx])) ∧
    (∀ tx lm1,
      alistLookup (dlg.label, accept.target) gi.lockManager.pendingTxAcceptances = none →
      gi.lockManager.popPendingProposal dlg.label accept.target = some (tx, lm1) →
      isProfitableTransaction u { gi with lockManager := lm1 } tx dlg = true →
      alistLookup tx.transactionId lm1.locks = none →
      (gi.isWorldModeling = true → 0 < tx.quantitiesByGood.sum) →
      ∃ ws1 lm2,
        onAccept u gi accept dlg = some ({ gi with lockManager := lm2, worldState := ws1 },
          [OutItem.byteMessage (accept.msgId + 1) accept.dialogueId gi.controllerPbk tx,
           OutItem.acceptItem (accept.msgId + 1) accept.dialogueId accept.destination
             accept.msgId]) ∧
        alistLookup tx.transactionId lm2.locks = some tx) ∧
    (∀ tx lm1,
      alistLookup (dlg.label, accept.target) gi.lockManager.pendingTxAcceptances = none →
      gi.lockManager.popPendingProposal dlg.label accept.target = some (tx, lm1) →
      isProfitableTransaction u { gi with lockManager := lm1 } tx dlg = false →
      onAccept u gi accept dlg = some ({ gi with lockManager := lm1 },
        [OutItem.declineItem (accept.msgId + 1) accept.dialogueId accept.destination
          accept.msgId])) := by
  refine ⟨?_, ?_, ?_⟩
  · intro tx lm1 hpop
    have hl := popPendingAcceptance_lookup hpop
    unfold onAccept
    rw [hl]
    simp only [Option.isSome_some, if_true]
    unfold onMatchAccept
    rw [hpop]
  · intro tx lm1 hla hpop hprof hlock hwm
    unfold onAccept
    rw [hla]
    simp only [Option.isSome_none, Bool.false_eq_true, if_false]
    unfold onInitialAccept
    rw [hpop]
    simp only [hprof, if_true]
    cases hw : gi.isWorldModeling with
    | false =>
      simp only [Bool.false_eq_true, if_false]
      unfold LockManager.addLock
      rw [hlock]
      simp only [Option.isSome_none, Bool.false_eq_true, if_false]
      exact ⟨gi.worldState, _, rfl, alistLookup_append_self _ _ _ hlock⟩
    | true =>
      have hsum : tx.quantitiesByGood.sum ≠ 0 := Nat.pos_iff_ne_zero.1 (hwm hw)
      rw [if_pos rfl]
      simp only [WorldState.updateOnInitialAccept, WorldState.fromTransactionUpdatePrice]
      rw [if_neg hsum]
      unfold LockManager.addLock
      rw [hlock]
      simp only [Option.isSome_none, Bool.false_eq_true, if_false]
      exact ⟨_, _, rfl, alistLookup_append_self _ _ _ hlock⟩
  · intro tx lm1 hla hpop hprof
    unfold onAccept
    rw [hla]
    simp only [Option.isSome_none, Bool.false_eq_true, if_false]
    unfold onInitialAccept
    rw [hpop]
    simp only [hprof, Bool.false_eq_true, if_false]

/-- Witness for C7: the initial-accept profitable case at the concrete
example instance, producing the settlement message and the echoed
Accept, with the lock recorded. -/
theorem accept_cases_witness :
    ∃ ws1 lm2,
      onAccept u0 exGi7 exAccept exDialogue =
        some ({ exGi7 with lockManager := lm2, worldState := ws1 },
          [OutItem.byteMessage 9 11 99 exTxFree, OutItem.acceptItem 9 11 1 8]) ∧
      alistLookup exTxFree.transactionId lm2.locks = some exTxFree :=
  (accept_cases u0 exGi7 exAccept exDialogue).2.1 exTxFree exLmEmpty
    rfl
    rfl
    (by norm_num [isProfitableTransaction, u0, exGi7, exLmEmpty, exTxFree, exDialogue,
      GameInstance.stateAfterLocks, AgentState.applyTxs, AgentState.update, AgentState.getScore,
      AgentState.getScoreDiffFromTransaction, AgentState.checkTransactionIsConsistent,
      exAgentState, exWorldState, round2, round_eq, addQ, holdingsGeq])
    rfl
    (by simp [exGi7])

/-- Claim C8: with belief modelling on, a Decline whose target matches a
pending proposal pops that proposal and feeds the discarded transaction
to the belief-state price update as a rejected observation: every good
with a positive traded quantity receives the observation (rejected,
amount divided by the total traded units, rounded to 1 decimal), and the
initial-accept path feeds the same update flagged accepted. -/
theorem decline_belief_update (gi : GameInstance) (decline : FipaMsg) (dlg : Dialogue)
    (tx : Transaction) (lm1 : LockManager)
    (hwm : gi.isWorldModeling = true)
    (hpop : gi.lockManager.popPendingProposal dlg.label decline.target = some (tx, lm1))
    (hpos : 0 < tx.quantitiesByGood.sum) :
    ∃ gi1, onDecline gi decline dlg = some gi1 ∧
      gi1.lockManager.pendingTxProposals = lm1.pendingTxProposals ∧
      (∀ i, gi1.worldState.goodPriceModels.getD i [] =
        if 0 < tx.quantitiesByGood.getD i 0 ∧ i < gi.worldState.goodPriceModels.length
        then gi.worldState.goodPriceModels.getD i [] ++
          [(false, round1 (tx.amount / (tx.quantitiesByGood.sum : ℚ)))]
        else gi.worldState.goodPriceModels.getD i []) ∧
      ∀ ws1, gi.worldState.updateOnInitialAccept tx = some ws1 →
        ∀ i, ws1.goodPriceModels.getD i [] =
          if 0 < tx.quantitiesByGood.getD i 0 ∧ i < gi.worldState.goodPriceModels.length
          then gi.worldState.goodPriceModels.getD i [] ++
            [(true, round1 (tx.amount / (tx.quantitiesByGood.sum : ℚ)))]
          else gi.worldState.goodPriceModels.getD i [] := by
  have hsum : tx.quantitiesByGood.sum ≠ 0 := Nat.pos_iff_ne_zero.1 hpos
  have haccept : ∀ ws1, gi.worldState.updateOnInitialAccept tx = some ws1 →
      ∀ i, ws1.goodPriceModels.getD i [] =
        if 0 < tx.quantitiesByGood.getD i 0 ∧ i < gi.worldState.goodPriceModels.length
        then gi.worldState.goodPriceModels.getD i [] ++
          [(true, round1 (tx.amount / (tx.quantitiesByGood.sum : ℚ)))]
        else gi.worldState.goodPriceModels.getD i [] := by
    intro ws1 hws i
    simp only [WorldState.updateOnInitialAccept, WorldState.fromTransactionUpdatePrice] at hws
    rw [if_neg hsum] at hws
    injection hws with hws1
    rw [← hws1]
    exact getD_updObs _ _ _ _
  simp only [onDecline]
  rw [hwm]
  simp only [if_true]
  rw [hpop]
  simp only [WorldState.updateOnDeclinedPropose, WorldState.fromTransactionUpdatePrice]
  rw [if_neg hsum]
  dsimp only
  by_cases hlk : (alistLookup
      (generateTransactionId gi.ownPbk decline.destination decline.dialogueId dlg.isSeller)
      lm1.locks).isSome = true
  · rw [if_pos hlk]
    refine ⟨_, rfl, rfl, ?_, haccept⟩
    intro i
    exact getD_updObs _ _ _ _
  · rw [if_neg hlk]
    refine ⟨_, rfl, rfl, ?_, haccept⟩
    intro i
    exact getD_updObs _ _ _ _

/-- Witness for C8 at the concrete belief-modelling instance. -/
theorem decline_belief_update_witness :
    ∃ gi1, onDecline exGi8 exDecline exDialogue = some gi1 ∧
      gi1.lockManager.pendingTxProposals = exLmEmpty.pendingTxProposals ∧
      (∀ i, gi1.worldState.goodPriceModels.getD i [] =
        if 0 < exTx.quantitiesByGood.getD i 0 ∧ i < exGi8.worldState.goodPriceModels.length
        then exGi8.worldState.goodPriceModels.getD i [] ++
          [(false, round1 (exTx.amount / (exTx.quantitiesByGood.sum : ℚ)))]
        else exGi8.worldState.goodPriceModels.getD i []) ∧
      ∀ ws1, exGi8.worldState.updateOnInitialAccept exTx = some ws1 →
        ∀ i, ws1.goodPriceModels.getD i [] =
          if 0 < exTx.quantitiesByGood.getD i 0 ∧ i < exGi8.worldState.goodPriceModels.length
          then exGi8.worldState.goodPriceModels.getD i [] ++
            [(true, round1 (exTx.amount / (exTx.quantitiesByGood.sum : ℚ)))]
          else exGi8.worldState.goodPriceModels.getD i [] :=
  decline_belief_update exGi8 exDecline exDialogue exTx exLmEmpty rfl rfl (by norm_num [exTx])

/-- Claim C9: a Propose whose implied transaction is evaluated as not
profitable is answered with a Decline and the returned game instance is
the input one: no balance, holding or price in the agent's ledger view
changes (the profitability evaluation is a pure function of the state
and mutates nothing). -/
theorem propose_not_profitable_decline (u : List ℚ → List ℤ → ℚ) (gi : GameInstance)
    (propose : ProposeMsg) (dlg : Dialogue)
    (h : isProfitableTransaction u gi (txFromProposal gi propose dlg) dlg = false) :
    onPropose u gi propose dlg =
      some (gi, OutItem.declineItem (propose.msgId + 1) propose.dialogueId
        propose.destination propose.msgId) := by
  simp only [onPropose]
  rw [h]
  simp only [Bool.false_eq_true, if_false]

/-- Witness for C9: the unprofitable example proposal gets a Decline and
the instance is returned unchanged. -/
theorem propose_not_profitable_decline_witness :
    onPropose u0 exGi9 exPropose exDialogue =
      some (exGi9, OutItem.declineItem 13 11 1 12) :=
  propose_not_profitable_decline u0 exGi9 exPropose exDialogue
    (by norm_num [isProfitableTransaction, u0, exGi9, exPropose, exDialogue, txFromProposal,
      GameInstance.stateAfterLocks, AgentState.applyTxs, AgentState.update, AgentState.getScore,
      AgentState.getScoreDiffFromTransaction, AgentState.checkTransactionIsConsistent,
      exAgentState, exLmEmpty, exWorldState, round2, round_eq, addQ, holdingsGeq])

/-- Claim C10: on a transaction all of whose traded quantities are zero,
the belief-state price update divides the amount by zero total units, so
both update entry points fail (none models the ZeroDivisionError)
instead of returning an updated state. -/
theorem update_price_all_zero_fails (ws : WorldState) (tx : Transaction)
    (h : ∀ q ∈ tx.quantitiesByGood, q = 0) :
    ws.updateOnDeclinedPropose tx = none ∧ ws.updateOnInitialAccept tx = none := by
  have hsum : tx.quantitiesByGood.sum = 0 := List.sum_eq_zero h
  constructor <;>
    simp [WorldState.updateOnDeclinedPropose, WorldState.updateOnInitialAccept,
      WorldState.fromTransactionUpdatePrice, hsum]

/-- Witness for C10 at the all-zero example transaction. -/
theorem update_price_all_zero_fails_witness :
    exWorldState.updateOnDeclinedPropose exTxZero = none ∧
      exWorldState.updateOnInitialAccept exTxZero = none :=
  update_price_all_zero_fails exWorldState exTxZero (by decide)

end TAC
